import Mathlib

/-!
Shallow embedding of the boids simulation in `src/src/main.rs` (crate `BoidRs`).

The Rust code works on `glam`/`bevy` `Vec2` over `f32`; we model coordinates as
real numbers.  `Vec2::normalize` on a zero-length vector produces non-finite
(NaN) components in glam; we model that failure mode by letting `normalize`
return `Option Vec2`, with `none` standing for a NaN result, and letting it
propagate through the steering primitive exactly as NaN propagates through the
Rust arithmetic.  A `usize` subtraction underflow (a Rust panic) is likewise
modelled as `none`.  Entities are modelled as natural numbers.
-/

noncomputable section

open Classical

/-- 2D vector over the reals, modelling `glam::Vec2`. -/
structure Vec2 where
  x : ℝ
  y : ℝ

namespace Vec2

/-- The zero vector `Vec2::ZERO`. -/
def zero : Vec2 := ⟨0, 0⟩

/-- Componentwise addition, modelling `Vec2::add`. -/
def add (a b : Vec2) : Vec2 := ⟨a.x + b.x, a.y + b.y⟩

/-- Componentwise negation, modelling `Vec2::neg`. -/
def neg (a : Vec2) : Vec2 := ⟨-a.x, -a.y⟩

/-- Division of a vector by a scalar, modelling `Vec2::div(f32)`. -/
def divs (a : Vec2) (s : ℝ) : Vec2 := ⟨a.x / s, a.y / s⟩

/-- Multiplication of a vector by a scalar, modelling `Vec2 * f32`. -/
def smul (a : Vec2) (s : ℝ) : Vec2 := ⟨a.x * s, a.y * s⟩

/-- Euclidean length, modelling `Vec2::length`. -/
def length (a : Vec2) : ℝ := Real.sqrt (a.x ^ 2 + a.y ^ 2)

/-- Total normalization helper: the vector divided by its length.
For the zero vector this is the zero vector (division by zero in ℝ). -/
def normalizeV (a : Vec2) : Vec2 := a.divs a.length

/-- Partial normalization modelling `Vec2::normalize`: glam returns a
NaN vector when the input has zero length, modelled here as `none`. -/
def normalize (a : Vec2) : Option Vec2 :=
  if a = Vec2.zero then none else some a.normalizeV

/-- Linear interpolation, modelling `Vec2::lerp(rhs, s) = self + (rhs - self) * s`. -/
def lerp (a b : Vec2) (s : ℝ) : Vec2 :=
  a.add ((b.add a.neg).smul s)

@[ext] theorem ext {a b : Vec2} (hx : a.x = b.x) (hy : a.y = b.y) : a = b := by
  cases a; cases b; simp only at hx hy; rw [hx, hy]

theorem eq_iff {a b : Vec2} : a = b ↔ a.x = b.x ∧ a.y = b.y := by
  constructor
  · intro h; rw [h]; exact ⟨rfl, rfl⟩
  · intro ⟨hx, hy⟩; exact Vec2.ext hx hy

theorem ne_zero_iff {a : Vec2} : a ≠ Vec2.zero ↔ a.x ≠ 0 ∨ a.y ≠ 0 := by
  rw [Ne, eq_iff]
  simp only [zero]
  tauto

end Vec2

/-- The `Boid` component from `main.rs`. -/
structure Boid where
  speed : ℝ
  rotation_speed : ℝ
  direction : Vec2
  view_distance : ℝ
  separation_distance : ℝ

/-- Constant `MANUAL_ROTATION_STRENGTH` from `main.rs`. -/
def MANUAL_ROTATION_STRENGTH : ℝ := 1
/-- Constant `COHESION_STRENGTH` from `main.rs`. -/
def COHESION_STRENGTH : ℝ := 1 / 5
/-- Constant `ALINGMENT_STRENGTH` from `main.rs` (sic). -/
def ALINGMENT_STRENGTH : ℝ := 1 / 5
/-- Constant `SEPARATION_STRENGTH` from `main.rs`. -/
def SEPARATION_STRENGTH : ℝ := 1 / 5

/-- Model of `rotate_boid_direction`: the boid's direction becomes
`direction.lerp(target_vector.normalize(), strength).normalize()`.
A NaN produced by either normalization (zero-length input) is `none`. -/
def rotate_boid_direction (boid : Boid) (target_vector : Vec2) (strength : ℝ) :
    Option Boid :=
  match target_vector.normalize with
  | none => none
  | some nt =>
    match (boid.direction.lerp nt strength).normalize with
    | none => none
    | some nd => some { boid with direction := nd }

/-- Lemma: the length of a normalized nonzero vector is 1. -/
theorem length_normalizeV {a : Vec2} (h : a ≠ Vec2.zero) :
    a.normalizeV.length = 1 := by
  have hsum : 0 < a.x ^ 2 + a.y ^ 2 := by
    rcases Vec2.ne_zero_iff.mp h with hx | hy
    · have := sq_nonneg a.y
      have := pow_pos (abs_pos.mpr hx) 2
      rw [← sq_abs a.x] at *
      nlinarith
    · have := sq_nonneg a.x
      have := pow_pos (abs_pos.mpr hy) 2
      rw [← sq_abs a.y] at *
      nlinarith
  have hL : 0 < Real.sqrt (a.x ^ 2 + a.y ^ 2) := Real.sqrt_pos.mpr hsum
  have hL2 : Real.sqrt (a.x ^ 2 + a.y ^ 2) ^ 2 = a.x ^ 2 + a.y ^ 2 :=
    Real.sq_sqrt hsum.le
  have key : (a.x / Real.sqrt (a.x ^ 2 + a.y ^ 2)) ^ 2
      + (a.y / Real.sqrt (a.x ^ 2 + a.y ^ 2)) ^ 2 = 1 := by
    rw [div_pow, div_pow, hL2, div_add_div_same, div_self hsum.ne']
  unfold Vec2.normalizeV Vec2.divs Vec2.length
  simp only []
  rw [key, Real.sqrt_one]

/-- Model of `calculate_average_point` from `main.rs`: sums the positions of
all entries whose entity differs from `ignore` (entries with no entity are
kept), then divides by `point_list.len() - 1`.  The `usize` subtraction
`point_list.len() - 1` panics on an empty list; that panic is modelled as
`none`. -/
def calculate_average_point (point_list : List (Vec2 × Option ℕ)) (ignore : ℕ) :
    Option Vec2 :=
  let average_point :=
    (point_list.filter (fun p =>
      match p.2 with
      | some e => e != ignore
      | none => true)).foldl (fun acc p => acc.add p.1) Vec2.zero
  if point_list.length = 0 then none
  else if point_list.length - 1 = 0 then some Vec2.zero
  else some (average_point.divs ((point_list.length - 1 : ℕ) : ℝ))

/-- Model of one iteration of the loop in `boid_cohesion_system`: `neighbors`
is the result of `treeaccess.within_distance(translation, view_distance)`.
If the average point is not `Vec2::ZERO`, the boid is steered toward it. -/
def boid_cohesion_step (neighbors : List (Vec2 × Option ℕ)) (translation : Vec2)
    (entity : ℕ) (boid : Boid) (delta_seconds : ℝ) : Option Boid :=
  match calculate_average_point neighbors entity with
  | none => none
  | some avereage_point =>
    if avereage_point = Vec2.zero then some boid
    else
      let vector_to_average_point : Vec2 :=
        ⟨avereage_point.x - translation.x, avereage_point.y - translation.y⟩
      let strength := boid.rotation_speed * delta_seconds * COHESION_STRENGTH
      rotate_boid_direction boid vector_to_average_point strength

/-- Model of one iteration of the loop in `boid_separation_system`:
`neighbors` is the result of `within_distance(translation, separation_distance)`.
Entries equal to `Some(entity)` are skipped; `i` counts the kept entries.
`summed.div(i).neg().normalize()` on a zero-length vector is NaN (`none`). -/
def boid_separation_step (neighbors : List (Vec2 × Option ℕ)) (translation : Vec2)
    (entity : ℕ) (boid : Boid) (delta_seconds : ℝ) : Option Boid :=
  if neighbors.length ≤ 1 then some boid
  else
    let kept := neighbors.filter (fun p => p.2 != some entity)
    let i : ℝ := kept.length
    let summed_vec_to_neighbors :=
      kept.foldl
        (fun acc p => acc.add ⟨p.1.x - translation.x, p.1.y - translation.y⟩)
        Vec2.zero
    match ((summed_vec_to_neighbors.divs i).neg).normalize with
    | none => none
    | some move_vec =>
      rotate_boid_direction boid move_vec
        (boid.rotation_speed * delta_seconds * SEPARATION_STRENGTH)

/-- Helper for monadic iteration in `Option`: applies `f` to every element and
collects the results; any `none` (a panic or NaN in the Rust code) makes the
whole result `none`. -/
def mapAll {α β : Type} (f : α → Option β) : List α → Option (List β)
  | [] => some []
  | a :: t => (f a).bind (fun b => (mapAll f t).map (fun bs => b :: bs))

/-- Model of one iteration of the loop in `boid_alignment_system`:
`neighbors` is the query result; entities are extracted (`filter_map`),
self is filtered out, each remaining entity's direction is looked up in the
snapshot `direction_map` (a missing key is the `unwrap` panic, `none`), the
directions are summed and divided by the count `i`. -/
def alignment_step (neighbors : List (Vec2 × Option ℕ))
    (direction_map : ℕ → Option Vec2) (entity : ℕ) (boid : Boid)
    (delta_seconds : ℝ) : Option Boid :=
  let ns := (neighbors.filterMap (fun p => p.2)).filter (fun e => e != entity)
  if ns.length = 0 then some boid
  else
    match mapAll direction_map ns with
    | none => none
    | some dirs =>
      let summed_direction := dirs.foldl (fun acc v => acc.add v) Vec2.zero
      let average_direction := summed_direction.divs (ns.length : ℝ)
      rotate_boid_direction boid average_direction
        (boid.rotation_speed * delta_seconds * ALINGMENT_STRENGTH)

/-- Model of one iteration of the loop in `move_boid_system`:
`translation += direction.extend(0.0).normalize() * speed * delta_seconds`.
The z-component stays 0, so this is 2D normalization; normalizing a
zero-length direction is NaN (`none`). -/
def move_boid_step (translation : Vec2) (boid : Boid) (delta_seconds : ℝ) :
    Option Vec2 :=
  match boid.direction.normalize with
  | none => none
  | some n => some (translation.add (n.smul (boid.speed * delta_seconds)))

/-- Per-axis wrap used by `avoid_walls_system`: a coordinate below 0 becomes
the bound, a coordinate strictly above the bound becomes 0, anything else is
unchanged. -/
def wrap_coord (bound t : ℝ) : ℝ :=
  if t < 0 then bound else if t > bound then 0 else t

/-- Model of one iteration of the loop in `avoid_walls_system` with window
dimensions `width` and `height`. -/
def avoid_walls_step (width height : ℝ) (translation : Vec2) : Vec2 :=
  let x := if translation.x < 0 then width
    else if translation.x > width then 0 else translation.x
  let y := if translation.y < 0 then height
    else if translation.y > height then 0 else translation.y
  ⟨x, y⟩

/-- One boid entity row of the ECS world: its `Entity` id, its `Transform`
translation and its `Boid` component. -/
structure Agent where
  entity : ℕ
  translation : Vec2
  boid : Boid

/-- Model of the snapshot `direction_map` collected at the start of
`boid_alignment_system`, before the mutation loop runs. -/
def direction_map (agents : List Agent) : ℕ → Option Vec2 :=
  fun e => (agents.find? (fun a => a.entity == e)).map (fun a => a.boid.direction)

/-- Model of the mutation loop of `boid_alignment_system`, processing the
agents in list order against a fixed direction snapshot `dmap` and a fixed
spatial query `query` (positions are not mutated by the system, so the query
results are constant during the loop; each agent is mutated exactly once, so
when an agent is processed its own direction still equals the snapshot value).
The result pairs each entity with its post-alignment `Boid`. -/
def run_alignment (query : Vec2 → ℝ → List (Vec2 × Option ℕ))
    (dmap : ℕ → Option Vec2) (delta_seconds : ℝ) (agents : List Agent) :
    Option (List (ℕ × Boid)) :=
  mapAll
    (fun a =>
      (alignment_step (query a.translation a.boid.view_distance) dmap a.entity
          a.boid delta_seconds).map
        (fun b => (a.entity, b)))
    agents

/-- Model of the whole `boid_alignment_system`: the direction snapshot is
taken from the agent list first, then the mutation loop runs over the agents
in their iteration order. -/
def boid_alignment_system (query : Vec2 → ℝ → List (Vec2 × Option ℕ))
    (delta_seconds : ℝ) (agents : List Agent) : Option (List (ℕ × Boid)) :=
  run_alignment query (direction_map agents) delta_seconds agents

namespace Vec2

theorem zero_divs (s : ℝ) : Vec2.zero.divs s = Vec2.zero := by
  unfold divs zero
  norm_num

theorem neg_zero : Vec2.zero.neg = Vec2.zero := by
  unfold neg zero
  norm_num

theorem add_zero (a : Vec2) : a.add Vec2.zero = a := by
  unfold add zero
  simp only []
  ext <;> simp

theorem smul_zero (a : Vec2) : a.smul 0 = Vec2.zero := by
  unfold smul zero
  norm_num

theorem lerp_zero (a b : Vec2) : a.lerp b 0 = a := by
  unfold lerp
  rw [smul_zero, add_zero]

theorem normalize_zero : Vec2.zero.normalize = none := if_pos rfl

theorem normalize_of_ne {a : Vec2} (h : a ≠ Vec2.zero) :
    a.normalize = some a.normalizeV := if_neg h

theorem length_zero : Vec2.zero.length = 0 := by
  unfold length zero
  simp only []
  rw [show (0:ℝ) ^ 2 + 0 ^ 2 = 0 by norm_num, Real.sqrt_zero]

theorem ne_zero_of_length_eq_one {a : Vec2} (h : a.length = 1) :
    a ≠ Vec2.zero := by
  intro he
  rw [he, length_zero] at h
  norm_num at h

theorem normalizeV_of_unit {a : Vec2} (h : a.length = 1) : a.normalizeV = a := by
  unfold normalizeV
  rw [h]
  unfold divs
  ext <;> simp

end Vec2

/-- Lemma: the filter used inside `calculate_average_point` (match on the
entity option) keeps exactly the entries whose entity is not `Some(ignore)`. -/
theorem cap_filter_eq (l : List (Vec2 × Option ℕ)) (ignore : ℕ) :
    (l.filter (fun p =>
      match p.2 with
      | some e => e != ignore
      | none => true))
      = l.filter (fun p => p.2 != some ignore) := by
  apply List.filter_congr
  intro p _
  cases h : p.2 <;> simp [h, bne]

/-- C8: `calculate_average_point` fails (the `usize` underflow panic in
`point_list.len() - 1`, modelled as `none`) exactly when the query result
list is empty; on any non-empty list it returns a value. -/
theorem calculate_average_point_none_iff (l : List (Vec2 × Option ℕ))
    (ignore : ℕ) :
    calculate_average_point l ignore = none ↔ l = [] := by
  by_cases h : l = []
  · subst h
    simp [calculate_average_point]
  · have hlen : l.length ≠ 0 := by
      simpa [List.length_eq_zero] using h
    unfold calculate_average_point
    simp only [hlen, if_false]
    constructor
    · intro hc
      split at hc <;> simp at hc
    · intro hc
      exact absurd hc h

/-- C5 counterexample: with width 100, height 50, an agent at exactly
(width, y) = (100, 5) is left unchanged by `avoid_walls_system` (the wrap
condition is the strict `x > width`), not moved to (0, 5) as claimed. -/
theorem avoid_walls_at_width_cex :
    avoid_walls_step 100 50 ⟨100, 5⟩ = ⟨100, 5⟩ ∧
    (⟨100, 5⟩ : Vec2) ≠ ⟨0, 5⟩ := by
  constructor
  · unfold avoid_walls_step
    norm_num
  · intro h
    have hx := congrArg Vec2.x h
    norm_num at hx

/-- C5 (amended): `avoid_walls_system` wraps the two axes independently by
`wrap_coord`; a coordinate strictly above the bound becomes 0, a coordinate
below 0 becomes the bound, and any in-bounds coordinate — including exactly
the bound itself, so an agent at (width, y) does not move — is unchanged. -/
theorem avoid_walls_step_spec (width height : ℝ) (p : Vec2) :
    avoid_walls_step width height p
        = ⟨wrap_coord width p.x, wrap_coord height p.y⟩ ∧
    ∀ bound t : ℝ,
      (t < 0 → wrap_coord bound t = bound) ∧
      (0 ≤ bound → t > bound → wrap_coord bound t = 0) ∧
      (0 ≤ t → t ≤ bound → wrap_coord bound t = t) := by
  constructor
  · rfl
  · intro bound t
    refine ⟨fun h => ?_, fun hb h => ?_, fun h0 h1 => ?_⟩
    · unfold wrap_coord
      rw [if_pos h]
    · unfold wrap_coord
      rw [if_neg (by linarith), if_pos h]
    · unfold wrap_coord
      rw [if_neg (not_lt.mpr h0), if_neg (not_lt.mpr h1)]

/-- Witness for C5 (amended) at width 100, height 50, position (150, −3):
x wraps to 0 and y wraps to 50 independently. -/
theorem avoid_walls_step_spec_w :
    avoid_walls_step 100 50 ⟨150, -3⟩ = ⟨0, 50⟩ := by
  obtain ⟨h1, h2⟩ := avoid_walls_step_spec 100 50 ⟨150, -3⟩
  rw [h1]
  rw [show (⟨150, -3⟩ : Vec2).x = 150 from rfl, show (⟨150, -3⟩ : Vec2).y = -3 from rfl]
  rw [(h2 100 150).2.1 (by norm_num) (by norm_num), (h2 50 (-3)).1 (by norm_num)]

/-- Lemma: the cohesion step leaves the boid unchanged whenever the computed
average point is exactly the zero vector. -/
theorem cohesion_step_of_avg_zero {neighbors : List (Vec2 × Option ℕ)}
    (translation : Vec2) {entity : ℕ} (boid : Boid) (dt : ℝ)
    (havg : calculate_average_point neighbors entity = some Vec2.zero) :
    boid_cohesion_step neighbors translation entity boid dt = some boid := by
  unfold boid_cohesion_step
  rw [havg]
  exact if_pos rfl

/-- C10: the cohesion rule's skip test compares the computed average point to
the zero vector; whenever `calculate_average_point` returns exactly (0, 0) —
even if the agent has real neighbors — the boid is left unchanged. -/
theorem cohesion_skips_on_zero_average (neighbors : List (Vec2 × Option ℕ))
    (translation : Vec2) (entity : ℕ) (boid : Boid) (dt : ℝ)
    (havg : calculate_average_point neighbors entity = some Vec2.zero) :
    boid_cohesion_step neighbors translation entity boid dt = some boid :=
  cohesion_step_of_avg_zero translation boid dt havg

/-- Witness for C10: the agent (entity 0) at (5, 5) has a genuine neighbor,
entity 1 at the origin; the average neighbor point is exactly (0, 0), so the
cohesion rule applies no steering that tick. -/
theorem cohesion_skips_on_zero_average_w :
    boid_cohesion_step [(⟨5, 5⟩, some 0), (⟨0, 0⟩, some 1)] ⟨5, 5⟩ 0
        ⟨20, 3, ⟨1, 0⟩, 50, 20⟩ 1 = some ⟨20, 3, ⟨1, 0⟩, 50, 20⟩ := by
  apply cohesion_skips_on_zero_average
  unfold calculate_average_point
  simp +decide only [List.filter_cons, List.filter_nil]
  norm_num [Vec2.add, Vec2.divs, Vec2.zero]

/-- Lemma: on a non-empty query result in which every entry belongs to the
querying entity itself, `calculate_average_point` returns the zero vector. -/
theorem cap_of_filter_empty {l : List (Vec2 × Option ℕ)} {ignore : ℕ}
    (hne : l ≠ [])
    (hf : l.filter (fun p => p.2 != some ignore) = []) :
    calculate_average_point l ignore = some Vec2.zero := by
  have hlen : l.length ≠ 0 := by
    simpa [List.length_eq_zero] using hne
  unfold calculate_average_point
  rw [cap_filter_eq, hf]
  simp only [List.foldl_nil, hlen, if_false]
  split
  · rfl
  · rw [Vec2.zero_divs]

/-- C4: a rule with no usable signal leaves the boid unchanged that tick —
separation skips when the query returns at most one result, alignment skips
when the query's entity list excluding self is empty, and cohesion skips when
the (non-empty) query result contains no entry other than the agent itself. -/
theorem rules_skip_without_signal
    (neighbors : List (Vec2 × Option ℕ)) (translation : Vec2) (entity : ℕ)
    (boid : Boid) (dmap : ℕ → Option Vec2) (dt : ℝ) :
    (neighbors.length ≤ 1 →
      boid_separation_step neighbors translation entity boid dt = some boid) ∧
    ((neighbors.filterMap (fun p => p.2)).filter (fun e => e != entity) = [] →
      alignment_step neighbors dmap entity boid dt = some boid) ∧
    (neighbors ≠ [] →
      neighbors.filter (fun p => p.2 != some entity) = [] →
      boid_cohesion_step neighbors translation entity boid dt = some boid) := by
  refine ⟨fun h => ?_, fun h => ?_, fun hne hf => ?_⟩
  · unfold boid_separation_step
    rw [if_pos h]
  · unfold alignment_step
    rw [h]
    rfl
  · exact cohesion_step_of_avg_zero translation boid dt (cap_of_filter_empty hne hf)

/-- Witness for C4: entity 0 queries and finds only itself; all three rules
leave its boid unchanged. -/
theorem rules_skip_without_signal_w :
    boid_separation_step [(⟨1, 2⟩, some 0)] ⟨1, 2⟩ 0 ⟨20, 3, ⟨1, 0⟩, 50, 20⟩ 1
        = some ⟨20, 3, ⟨1, 0⟩, 50, 20⟩ ∧
    alignment_step [(⟨1, 2⟩, some 0)] (fun _ => none) 0 ⟨20, 3, ⟨1, 0⟩, 50, 20⟩ 1
        = some ⟨20, 3, ⟨1, 0⟩, 50, 20⟩ ∧
    boid_cohesion_step [(⟨1, 2⟩, some 0)] ⟨1, 2⟩ 0 ⟨20, 3, ⟨1, 0⟩, 50, 20⟩ 1
        = some ⟨20, 3, ⟨1, 0⟩, 50, 20⟩ := by
  obtain ⟨h1, h2, h3⟩ := rules_skip_without_signal [(⟨1, 2⟩, some 0)] ⟨1, 2⟩ 0
    ⟨20, 3, ⟨1, 0⟩, 50, 20⟩ (fun _ => none) 1
  exact ⟨h1 (by simp), h2 (by simp), h3 (by simp) (by simp)⟩

/-- C9: when the separation query returns at least two results but the summed
vector toward the kept neighbors is the zero vector (a neighbor exactly at the
agent's position, or neighbors symmetric about it), the code normalizes a
zero-length vector (NaN, modelled `none`) and the boid's heading is destroyed
rather than left a unit vector. -/
theorem separation_nan_on_zero_sum (neighbors : List (Vec2 × Option ℕ))
    (translation : Vec2) (entity : ℕ) (boid : Boid) (dt : ℝ)
    (hlen : 2 ≤ neighbors.length)
    (hsum : (neighbors.filter (fun p => p.2 != some entity)).foldl
        (fun acc p => acc.add ⟨p.1.x - translation.x, p.1.y - translation.y⟩)
        Vec2.zero = Vec2.zero) :
    boid_separation_step neighbors translation entity boid dt = none := by
  unfold boid_separation_step
  rw [if_neg (by omega)]
  simp only []
  rw [hsum, Vec2.zero_divs, Vec2.neg_zero, Vec2.normalize_zero]

/-- Witness for C9: entity 1 sits exactly at entity 0's position; the summed
neighbor vector is zero and the separation step yields a NaN heading. -/
theorem separation_nan_on_zero_sum_w :
    boid_separation_step [(⟨2, 3⟩, some 0), (⟨2, 3⟩, some 1)] ⟨2, 3⟩ 0
        ⟨20, 3, ⟨1, 0⟩, 50, 20⟩ 1 = none := by
  apply separation_nan_on_zero_sum
  · simp
  · simp +decide only [List.filter_cons, List.filter_nil]
    norm_num [Vec2.add, Vec2.zero]

/-- Lemma: filtering out the entries that match an entity keeps
`length − count of matches` entries. -/
theorem length_filter_bne (l : List (Vec2 × Option ℕ)) (e : ℕ) :
    (l.filter (fun p => p.2 != some e)).length
      = l.length - l.countP (fun p => p.2 == some e) := by
  induction l with
  | nil => rfl
  | cons a t ih =>
    have hle := List.countP_le_length (p := fun p => p.2 == some e) (l := t)
    by_cases h : a.2 = some e
    · have hb : (a.2 != some e) = false := by simp [bne, h]
      have hb2 : (a.2 == some e) = true := by simp [h]
      simp only [List.filter_cons, List.countP_cons, hb, hb2, Bool.false_eq_true,
        if_false, if_true, List.length_cons, ih]
      omega
    · have hb : (a.2 != some e) = true := by simp [bne, h]
      have hb2 : (a.2 == some e) = false := by simp [h]
      simp only [List.filter_cons, List.countP_cons, hb, hb2, Bool.false_eq_true,
        if_false, if_true, List.length_cons, ih]
      omega

/-- C2: when the view-radius query result contains the querying agent exactly
once, the cohesion average is the sum of the returned positions excluding the
agent divided by the count excluding the agent (the code's `len() − 1`
denominator agrees with that count), and whenever that average is nonzero the
steering call's target is the average point minus the agent's position. -/
theorem cohesion_average_excludes_self
    (neighbors : List (Vec2 × Option ℕ)) (translation : Vec2) (entity : ℕ)
    (boid : Boid) (dt : ℝ)
    (hself : neighbors.countP (fun p => p.2 == some entity) = 1) :
    calculate_average_point neighbors entity
        = some (((neighbors.filter (fun p => p.2 != some entity)).foldl
              (fun acc p => acc.add p.1) Vec2.zero).divs
            ((neighbors.filter (fun p => p.2 != some entity)).length : ℝ)) ∧
    ∀ m : Vec2, calculate_average_point neighbors entity = some m →
      m ≠ Vec2.zero →
      boid_cohesion_step neighbors translation entity boid dt
        = rotate_boid_direction boid ⟨m.x - translation.x, m.y - translation.y⟩
            (boid.rotation_speed * dt * COHESION_STRENGTH) := by
  have hpos : 1 ≤ neighbors.length := by
    have := List.countP_le_length (p := fun p => p.2 == some entity)
      (l := neighbors)
    omega
  have hlen : neighbors.length ≠ 0 := by omega
  have hF : (neighbors.filter (fun p => p.2 != some entity)).length
      = neighbors.length - 1 := by
    rw [length_filter_bne, hself]
  constructor
  · unfold calculate_average_point
    rw [cap_filter_eq]
    simp only [hlen, if_false]
    by_cases h1 : neighbors.length - 1 = 0
    · rw [if_pos h1]
      have hF0 : (neighbors.filter (fun p => p.2 != some entity)).length = 0 := by
        omega
      rw [List.length_eq_zero] at hF0
      rw [hF0]
      simp only [List.foldl_nil, List.length_nil, Nat.cast_zero, Vec2.zero_divs]
    · rw [if_neg h1, hF]
  · intro m hm hmz
    unfold boid_cohesion_step
    rw [hm]
    simp only []
    rw [if_neg hmz]

/-- Witness for C2: entity 0 at (5, 0) with the single other neighbor
entity 1 at (1, 2); the average point is (1, 2)/1 = (1, 2) and the cohesion
steering target is (1 − 5, 2 − 0). -/
theorem cohesion_average_excludes_self_w :
    calculate_average_point [(⟨5, 0⟩, some 0), (⟨1, 2⟩, some 1)] 0
        = some ⟨1, 2⟩ ∧
    boid_cohesion_step [(⟨5, 0⟩, some 0), (⟨1, 2⟩, some 1)] ⟨5, 0⟩ 0
        ⟨20, 3, ⟨1, 0⟩, 50, 20⟩ 1
      = rotate_boid_direction ⟨20, 3, ⟨1, 0⟩, 50, 20⟩ ⟨1 - 5, 2 - 0⟩
          ((3 : ℝ) * 1 * COHESION_STRENGTH) := by
  obtain ⟨h1, h2⟩ := cohesion_average_excludes_self
    [(⟨5, 0⟩, some 0), (⟨1, 2⟩, some 1)] ⟨5, 0⟩ 0 ⟨20, 3, ⟨1, 0⟩, 50, 20⟩ 1
    (by simp +decide [List.countP_cons])
  have havg : calculate_average_point [(⟨5, 0⟩, some 0), (⟨1, 2⟩, some 1)] 0
      = some ⟨1, 2⟩ := by
    rw [h1]
    simp +decide only [List.filter_cons, List.filter_nil]
    norm_num [Vec2.add, Vec2.divs, Vec2.zero, List.foldl]
  refine ⟨havg, ?_⟩
  have := h2 ⟨1, 2⟩ havg (by
    intro h
    have := congrArg Vec2.y h
    norm_num [Vec2.zero] at this)
  simpa using this

namespace Vec2

theorem length_axis (x : ℝ) (hx : 0 ≤ x) : (⟨x, 0⟩ : Vec2).length = x := by
  unfold length
  simp only []
  rw [show x ^ 2 + (0:ℝ) ^ 2 = x ^ 2 by norm_num, Real.sqrt_sq hx]

theorem normalizeV_axis (x : ℝ) (hx : 0 < x) :
    (⟨x, 0⟩ : Vec2).normalizeV = ⟨1, 0⟩ := by
  unfold normalizeV
  rw [length_axis x hx.le]
  unfold divs
  simp only []
  rw [div_self hx.ne', zero_div]

end Vec2

/-- C1 counterexample: with unit heading (1, 0), non-zero target (−1, 0) and
strength 1/2, the interpolated vector is the zero vector; its normalization is
NaN (`none`), so the steering call does not yield a unit heading. -/
theorem rotate_antiparallel_cex :
    (⟨1, 0⟩ : Vec2).length = 1 ∧ (⟨-1, 0⟩ : Vec2) ≠ Vec2.zero ∧
    rotate_boid_direction ⟨20, 3, ⟨1, 0⟩, 50, 20⟩ ⟨-1, 0⟩ (1 / 2) = none := by
  refine ⟨Vec2.length_axis 1 (by norm_num), ?_, ?_⟩
  · intro h
    have := congrArg Vec2.x h
    norm_num [Vec2.zero] at this
  · unfold rotate_boid_direction
    have hne : (⟨-1, 0⟩ : Vec2) ≠ Vec2.zero := by
      intro h
      have := congrArg Vec2.x h
      norm_num [Vec2.zero] at this
    rw [Vec2.normalize_of_ne hne]
    have hnv : (⟨-1, 0⟩ : Vec2).normalizeV = ⟨-1, 0⟩ := by
      unfold Vec2.normalizeV
      rw [show (⟨-1, 0⟩ : Vec2).length = 1 by
        unfold Vec2.length
        simp only []
        rw [show (-1:ℝ) ^ 2 + (0:ℝ) ^ 2 = 1 by norm_num, Real.sqrt_one]]
      unfold Vec2.divs
      norm_num
    rw [hnv]
    simp only []
    have hlerp : (⟨1, 0⟩ : Vec2).lerp ⟨-1, 0⟩ (1 / 2) = Vec2.zero := by
      unfold Vec2.lerp Vec2.add Vec2.neg Vec2.smul Vec2.zero
      norm_num
    rw [hlerp, Vec2.normalize_zero]

/-- C1 (amended): when the target vector is non-zero, the current heading is a
unit vector, and the interpolated vector (heading lerped toward the normalized
target) is non-zero, the steering call succeeds and the resulting heading is
again a unit vector. -/
theorem rotate_preserves_unit (boid : Boid) (target : Vec2) (strength : ℝ)
    (hu : boid.direction.length = 1) (ht : target ≠ Vec2.zero)
    (hl : boid.direction.lerp target.normalizeV strength ≠ Vec2.zero) :
    ∃ b' : Boid,
      rotate_boid_direction boid target strength = some b' ∧
      b'.direction.length = 1 := by
  unfold rotate_boid_direction
  rw [Vec2.normalize_of_ne ht]
  simp only []
  rw [Vec2.normalize_of_ne hl]
  exact ⟨_, rfl, length_normalizeV hl⟩

/-- Witness for C1 (amended): heading (1, 0), target (3, 0), strength 1/2. -/
theorem rotate_preserves_unit_w :
    ∃ b' : Boid,
      rotate_boid_direction ⟨20, 3, ⟨1, 0⟩, 50, 20⟩ ⟨3, 0⟩ (1 / 2) = some b' ∧
      b'.direction.length = 1 := by
  apply rotate_preserves_unit
  · exact Vec2.length_axis 1 (by norm_num)
  · intro h
    have := congrArg Vec2.x h
    norm_num [Vec2.zero] at this
  · rw [Vec2.normalizeV_axis 3 (by norm_num)]
    intro h
    have := congrArg Vec2.x h
    unfold Vec2.lerp Vec2.add Vec2.neg Vec2.smul Vec2.zero at this
    norm_num at this

/-- C6 counterexample: nothing in the code guards `delta_time`; with
delta_seconds = −1 an agent at the origin heading (1, 0) at speed 20 is moved
to (−20, 0) by the integration step, so a non-positive delta_time is not a
no-op. -/
theorem tick_negative_dt_cex :
    move_boid_step ⟨0, 0⟩ ⟨20, 3, ⟨1, 0⟩, 50, 20⟩ (-1) = some ⟨-20, 0⟩ ∧
    (⟨-20, 0⟩ : Vec2) ≠ ⟨0, 0⟩ := by
  constructor
  · unfold move_boid_step
    have hne : (⟨1, 0⟩ : Vec2) ≠ Vec2.zero := by
      intro h
      have := congrArg Vec2.x h
      norm_num [Vec2.zero] at this
    rw [show (⟨20, 3, ⟨1, 0⟩, 50, 20⟩ : Boid).direction = ⟨1, 0⟩ from rfl,
      Vec2.normalize_of_ne hne, Vec2.normalizeV_axis 1 (by norm_num)]
    unfold Vec2.add Vec2.smul
    norm_num
  · intro h
    have := congrArg Vec2.x h
    norm_num at this

/-- C6 (amended): only delta_seconds = 0 makes the integration and steering
steps no-ops (for a unit heading and a non-zero steering target); the code has
no delta_time guard, so a negative delta_seconds moves the agent backwards and
a non-finite delta_seconds is not intercepted. -/
theorem tick_zero_dt_noop (translation : Vec2) (boid : Boid) (target : Vec2)
    (hu : boid.direction.length = 1) (ht : target ≠ Vec2.zero) :
    move_boid_step translation boid 0 = some translation ∧
    ∀ w : ℝ,
      rotate_boid_direction boid target (boid.rotation_speed * 0 * w)
        = some boid := by
  have hdir : boid.direction ≠ Vec2.zero := Vec2.ne_zero_of_length_eq_one hu
  constructor
  · unfold move_boid_step
    rw [Vec2.normalize_of_ne hdir]
    simp only [mul_zero, Vec2.smul_zero, Vec2.add_zero]
  · intro w
    rw [mul_zero, zero_mul]
    unfold rotate_boid_direction
    rw [Vec2.normalize_of_ne ht]
    simp only []
    rw [Vec2.lerp_zero, Vec2.normalize_of_ne hdir, Vec2.normalizeV_of_unit hu]

/-- Witness for C6 (amended): at delta_seconds = 0 a boid at (7, 8) with unit
heading (1, 0) is not moved and a cohesion-style steering call with target
(3, 0) leaves its state unchanged. -/
theorem tick_zero_dt_noop_w :
    move_boid_step ⟨7, 8⟩ ⟨20, 3, ⟨1, 0⟩, 50, 20⟩ 0 = some ⟨7, 8⟩ ∧
    rotate_boid_direction ⟨20, 3, ⟨1, 0⟩, 50, 20⟩ ⟨3, 0⟩
        ((⟨20, 3, ⟨1, 0⟩, 50, 20⟩ : Boid).rotation_speed * 0 * COHESION_STRENGTH)
      = some ⟨20, 3, ⟨1, 0⟩, 50, 20⟩ := by
  have h := tick_zero_dt_noop ⟨7, 8⟩ ⟨20, 3, ⟨1, 0⟩, 50, 20⟩ ⟨3, 0⟩
    (Vec2.length_axis 1 (by norm_num))
    (by
      intro h
      have := congrArg Vec2.x h
      norm_num [Vec2.zero] at this)
  exact ⟨h.1, h.2 COHESION_STRENGTH⟩

/-- Lemma: `mapAll` fails exactly when `f` fails on some element. -/
theorem mapAll_eq_none_iff {α β : Type} (f : α → Option β) (l : List α) :
    mapAll f l = none ↔ ∃ a ∈ l, f a = none := by
  induction l with
  | nil => simp [mapAll]
  | cons a t ih =>
    cases hfa : f a with
    | none =>
      have hred : mapAll f (a :: t) = none := by simp [mapAll, hfa]
      rw [hred]
      exact iff_of_true rfl ⟨a, List.mem_cons_self a t, hfa⟩
    | some b =>
      have hred : mapAll f (a :: t) = (mapAll f t).map (fun bs => b :: bs) := by
        simp [mapAll, hfa]
      rw [hred]
      constructor
      · intro h
        have hmt : mapAll f t = none := by
          cases hmt : mapAll f t
          · rfl
          · rw [hmt] at h
            simp at h
        obtain ⟨c, hc, hcn⟩ := ih.mp hmt
        exact ⟨c, List.mem_cons_of_mem a hc, hcn⟩
      · rintro ⟨c, hc, hcn⟩
        rcases List.mem_cons.mp hc with rfl | hct
        · rw [hcn] at hfa
          cases hfa
        · rw [ih.mpr ⟨c, hct, hcn⟩]
          rfl

/-- Lemma: a successful `mapAll` is the plain `map` of the per-element
results. -/
theorem mapAll_eq_some {α β : Type} (f : α → Option β) (l : List α)
    (r : List β) (d : β) (h : mapAll f l = some r) :
    r = l.map (fun a => (f a).getD d) := by
  induction l generalizing r with
  | nil =>
    simp [mapAll] at h
    simp [h.symm]
  | cons a t ih =>
    cases hfa : f a with
    | none =>
      rw [show mapAll f (a :: t) = none by simp [mapAll, hfa]] at h
      cases h
    | some b =>
      rw [show mapAll f (a :: t) = (mapAll f t).map (fun bs => b :: bs) by
        simp [mapAll, hfa]] at h
      cases hmt : mapAll f t with
      | none =>
        rw [hmt] at h
        cases h
      | some bs =>
        rw [hmt] at h
        simp at h
        rw [← h, List.map_cons, hfa]
        simp only [Option.getD_some]
        rw [ih bs hmt]

/-- Lemma: `mapAll` fails on one list iff it fails on a permutation of it. -/
theorem mapAll_perm_none {α β : Type} {f : α → Option β} {l₁ l₂ : List α}
    (hp : l₁.Perm l₂) :
    mapAll f l₁ = none ↔ mapAll f l₂ = none := by
  rw [mapAll_eq_none_iff, mapAll_eq_none_iff]
  constructor <;> rintro ⟨a, ha, hn⟩
  · exact ⟨a, hp.mem_iff.mp ha, hn⟩
  · exact ⟨a, hp.mem_iff.mpr ha, hn⟩

/-- Lemma: successful `mapAll` runs over permuted lists produce permuted
results. -/
theorem mapAll_perm_some {α β : Type} {f : α → Option β} {l₁ l₂ : List α}
    (hp : l₁.Perm l₂) (d : β) {r₁ r₂ : List β}
    (h₁ : mapAll f l₁ = some r₁) (h₂ : mapAll f l₂ = some r₂) :
    r₁.Perm r₂ := by
  rw [mapAll_eq_some f l₁ r₁ d h₁, mapAll_eq_some f l₂ r₂ d h₂]
  exact hp.map _

/-- Lemma: `find?` returns the same result on two permuted lists when at most
one element can satisfy the predicate. -/
theorem find?_eq_of_perm {α : Type} {p : α → Bool} {l₁ l₂ : List α}
    (hp : l₁.Perm l₂)
    (huniq : ∀ a ∈ l₁, ∀ b ∈ l₁, p a = true → p b = true → a = b) :
    l₁.find? p = l₂.find? p := by
  cases h₁ : l₁.find? p with
  | none =>
    cases h₂ : l₂.find? p with
    | none => rfl
    | some b =>
      have hb := List.find?_some h₂
      have hmem := hp.mem_iff.mpr (List.mem_of_find?_eq_some h₂)
      exact absurd hb (List.find?_eq_none.mp h₁ b hmem)
  | some a =>
    have ha := List.find?_some h₁
    have hamem := List.mem_of_find?_eq_some h₁
    cases h₂ : l₂.find? p with
    | none =>
      exact absurd ha (List.find?_eq_none.mp h₂ a (hp.mem_iff.mp hamem))
    | some b =>
      have hb := List.find?_some h₂
      have hbmem := hp.mem_iff.mpr (List.mem_of_find?_eq_some h₂)
      rw [huniq a hamem b hbmem ha hb]

/-- Lemma: the pre-tick direction snapshot does not depend on the iteration
order of the agents, as long as entity ids are pairwise distinct. -/
theorem direction_map_eq_of_perm {l₁ l₂ : List Agent} (hp : l₁.Perm l₂)
    (hnd : l₁.Pairwise (fun a b => a.entity ≠ b.entity)) :
    direction_map l₁ = direction_map l₂ := by
  funext e
  unfold direction_map
  have hsymm : Symmetric (fun a b : Agent => a.entity ≠ b.entity) :=
    fun x y hxy hyx => hxy hyx.symm
  have huniq : ∀ a ∈ l₁, ∀ b ∈ l₁,
      (a.entity == e) = true → (b.entity == e) = true → a = b := by
    intro a ha b hb hpa hpb
    have hae : a.entity = e := by simpa using hpa
    have hbe : b.entity = e := by simpa using hpb
    by_contra hne
    exact hnd.forall hsymm ha hb hne (hae.trans hbe.symm)
  rw [find?_eq_of_perm hp huniq]

/-- C3: the alignment rule reads all neighbor headings from the snapshot
`direction_map` captured before its mutation loop starts, so the outcome of
`boid_alignment_system` does not depend on the order in which the agents are
processed: over any two iteration orders (permutations of the same agent set
with distinct entity ids) the system either panics in both or produces the
same set of (entity, post-alignment boid) pairs. -/
theorem alignment_order_independent (query : Vec2 → ℝ → List (Vec2 × Option ℕ))
    (dt : ℝ) (l₁ l₂ : List Agent) (hp : l₁.Perm l₂)
    (hnd : l₁.Pairwise (fun a b => a.entity ≠ b.entity)) :
    (boid_alignment_system query dt l₁ = none ↔
      boid_alignment_system query dt l₂ = none) ∧
    ∀ r₁ r₂ : List (ℕ × Boid),
      boid_alignment_system query dt l₁ = some r₁ →
      boid_alignment_system query dt l₂ = some r₂ →
      r₁.Perm r₂ ∧ ∀ (e : ℕ) (b : Boid), ((e, b) ∈ r₁ ↔ (e, b) ∈ r₂) := by
  have hdm := direction_map_eq_of_perm hp hnd
  unfold boid_alignment_system run_alignment
  rw [hdm]
  refine ⟨mapAll_perm_none hp, fun r₁ r₂ h₁ h₂ => ?_⟩
  have hperm := mapAll_perm_some hp (⟨0, ⟨0, 0, Vec2.zero, 0, 0⟩⟩ : ℕ × Boid)
    h₁ h₂
  exact ⟨hperm, fun e b => hperm.mem_iff⟩

/-- Witness for C3: two agents processed in the two possible orders (out of
neighbor range, so the rule skips both) yield the same set of post-alignment
pairs. -/
theorem alignment_order_independent_w :
    boid_alignment_system (fun _ _ => []) 1
        [⟨0, ⟨0, 0⟩, ⟨20, 3, ⟨1, 0⟩, 50, 20⟩⟩,
         ⟨1, ⟨10, 0⟩, ⟨20, 3, ⟨1, 0⟩, 50, 20⟩⟩]
      = some [(0, ⟨20, 3, ⟨1, 0⟩, 50, 20⟩), (1, ⟨20, 3, ⟨1, 0⟩, 50, 20⟩)] ∧
    boid_alignment_system (fun _ _ => []) 1
        [⟨1, ⟨10, 0⟩, ⟨20, 3, ⟨1, 0⟩, 50, 20⟩⟩,
         ⟨0, ⟨0, 0⟩, ⟨20, 3, ⟨1, 0⟩, 50, 20⟩⟩]
      = some [(1, ⟨20, 3, ⟨1, 0⟩, 50, 20⟩), (0, ⟨20, 3, ⟨1, 0⟩, 50, 20⟩)] ∧
    List.Perm
      [((0 : ℕ), (⟨20, 3, ⟨1, 0⟩, 50, 20⟩ : Boid)),
       (1, ⟨20, 3, ⟨1, 0⟩, 50, 20⟩)]
      [(1, ⟨20, 3, ⟨1, 0⟩, 50, 20⟩), (0, ⟨20, 3, ⟨1, 0⟩, 50, 20⟩)] := by
  have e₁ : boid_alignment_system (fun _ _ => []) 1
      [⟨0, ⟨0, 0⟩, ⟨20, 3, ⟨1, 0⟩, 50, 20⟩⟩,
       ⟨1, ⟨10, 0⟩, ⟨20, 3, ⟨1, 0⟩, 50, 20⟩⟩]
      = some [(0, ⟨20, 3, ⟨1, 0⟩, 50, 20⟩), (1, ⟨20, 3, ⟨1, 0⟩, 50, 20⟩)] := rfl
  have e₂ : boid_alignment_system (fun _ _ => []) 1
      [⟨1, ⟨10, 0⟩, ⟨20, 3, ⟨1, 0⟩, 50, 20⟩⟩,
       ⟨0, ⟨0, 0⟩, ⟨20, 3, ⟨1, 0⟩, 50, 20⟩⟩]
      = some [(1, ⟨20, 3, ⟨1, 0⟩, 50, 20⟩), (0, ⟨20, 3, ⟨1, 0⟩, 50, 20⟩)] := rfl
  have h := alignment_order_independent (fun _ _ => []) 1
    [⟨0, ⟨0, 0⟩, ⟨20, 3, ⟨1, 0⟩, 50, 20⟩⟩,
     ⟨1, ⟨10, 0⟩, ⟨20, 3, ⟨1, 0⟩, 50, 20⟩⟩]
    [⟨1, ⟨10, 0⟩, ⟨20, 3, ⟨1, 0⟩, 50, 20⟩⟩,
     ⟨0, ⟨0, 0⟩, ⟨20, 3, ⟨1, 0⟩, 50, 20⟩⟩]
    (List.Perm.swap _ _ _)
    (by simp [List.pairwise_cons])
  exact ⟨e₁, e₂, (h.2 _ _ e₁ e₂).1⟩
